import Mathlib

/-!
Verification of the secure-device-access repository: a shallow embedding of
the `DeviceMaintenance` Solidity contract, the AES-GCM envelope utilities of
the frontend crypto module, and the `useDeviceContract` hook's storage
encoding, together with proofs and refutations of the specified properties.

Conventions of the embedding:
* JS strings are Lean `String` (a structure over `List Char`); byte sequences
  (`Uint8Array`, Solidity `bytes`) are `List Nat` whose elements are < 256.
* The Web Crypto AEAD primitive (`crypto.subtle.encrypt` / `decrypt` with
  AES-GCM) is an external platform primitive, not repository code; functions
  that call it are parameterized by an abstract encrypt/decrypt pair, and
  theorems assume the primitive's standard contract where needed.
* Solidity `require` failures revert the whole call; operations are embedded
  as `Except`-returning functions whose checks occur, in source order, before
  any state is produced.
-/

/-! ## Hex and string helpers (src/ui/src/utils/crypto.ts) -/

/-- Value of one hex digit as accepted by the radix-16 `parseInt`:
digits `0-9`, lowercase `a-f`, uppercase `A-F`; `none` otherwise. -/
def hexVal (c : Char) : Option Nat :=
  if 48 ≤ c.toNat ∧ c.toNat ≤ 57 then some (c.toNat - 48)
  else if 97 ≤ c.toNat ∧ c.toNat ≤ 102 then some (c.toNat - 87)
  else if 65 ≤ c.toNat ∧ c.toNat ≤ 70 then some (c.toNat - 55)
  else none

/-- The lowercase hex digit for a value below 16 (the digit alphabet of the
JS `Number.prototype.toString(16)`). -/
def hexDigitChar : Nat → Char
  | 0 => '0' | 1 => '1' | 2 => '2' | 3 => '3' | 4 => '4' | 5 => '5' | 6 => '6'
  | 7 => '7' | 8 => '8' | 9 => '9' | 10 => 'a' | 11 => 'b' | 12 => 'c'
  | 13 => 'd' | 14 => 'e' | 15 => 'f' | _ => '0'

/-- Two-digit lowercase hex rendering of one byte:
`b.toString(16).padStart(2, '0')` for `b < 256` (the bytes come from a
`Uint8Array`, so they are always below 256). -/
def byteToHex (b : Nat) : List Char :=
  [hexDigitChar (b / 16), hexDigitChar (b % 16)]

/-- `bytesToHex` of crypto.ts: map each byte to two lowercase hex digits and
join. Modeled on the character list of the produced JS string. -/
def bytesToHex : List Nat → List Char
  | [] => []
  | b :: rest => byteToHex b ++ bytesToHex rest

/-- The radix-16 `parseInt` applied to a two-character substring, as used by
`hexToBytes` (`parseInt(n.substr(i * 2, 2), 16)`), composed with the
`Uint8Array` element coercion that turns `NaN` into 0.  A pair of valid hex
digits parses positionally; a valid digit followed by an invalid character
parses as the single leading digit; an invalid leading character yields `NaN`,
stored as 0.  (Sign and whitespace prefixes never occur in the two-character
substrings taken from the repository's data and are not modeled.) -/
def parseIntPair (c1 c2 : Char) : Nat :=
  match hexVal c1, hexVal c2 with
  | some v1, some v2 => v1 * 16 + v2
  | some v1, none => v1
  | none, _ => 0

/-- Parse consecutive two-character substrings of an even-length character
list, as the loop of `hexToBytes` does. -/
def hexPairs : List Char → List Nat
  | c1 :: c2 :: rest => parseIntPair c1 c2 :: hexPairs rest
  | _ => []

/-- The `hex.startsWith('0x') ? hex.slice(2) : hex` normalization of
`hexToBytes`. -/
def strip0x : List Char → List Char
  | '0' :: 'x' :: rest => rest
  | l => l

/-- `hexToBytes` of crypto.ts.  An odd-length input makes
`new Uint8Array(n.length / 2)` throw a `RangeError` (fractional length),
modeled as `none`; otherwise every two-character substring is parsed by the
radix-16 `parseInt` with `NaN` coerced to 0. -/
def hexToBytes (hex : String) : Option (List Nat) :=
  let n := strip0x hex.data
  if n.length % 2 = 0 then some (hexPairs n) else none

/-- The JS `String.prototype.split(':')` on a character list. -/
def splitOnColon : List Char → List (List Char)
  | [] => [[]]
  | c :: rest =>
    match splitOnColon rest with
    | [] => [[]]
    | s :: ss => if c = ':' then [] :: s :: ss else (c :: s) :: ss

/-- The JS `String.prototype.includes(':')`. -/
def jsIncludes (l : List Char) (c : Char) : Bool :=
  l.contains c

/-- The JS `String.prototype.replace(':', '')` with a string pattern:
removes only the first occurrence. -/
def replaceFirstColon : List Char → List Char
  | [] => []
  | c :: rest => if c = ':' then rest else c :: replaceFirstColon rest

/-! ## UTF-8 (TextEncoder / TextDecoder / ethers.toUtf8Bytes)

`stringToArrayBuffer` / `arrayBufferToString` in crypto.ts and
`ethers.toUtf8Bytes` in the hook delegate to the platform UTF-8 codec;
the codec itself is modeled here, exactly on well-formed data. -/

/-- UTF-8 encoding of one Unicode scalar value. -/
def utf8EncodeChar (c : Char) : List Nat :=
  let n := c.toNat
  if n < 0x80 then [n]
  else if n < 0x800 then [0xC0 + n / 64, 0x80 + n % 64]
  else if n < 0x10000 then
    [0xE0 + n / 4096, 0x80 + (n / 64) % 64, 0x80 + n % 64]
  else
    [0xF0 + n / 262144, 0x80 + (n / 4096) % 64, 0x80 + (n / 64) % 64, 0x80 + n % 64]

/-- UTF-8 encoding of a character list (`TextEncoder.encode`,
`ethers.toUtf8Bytes`). -/
def utf8Encode : List Char → List Nat
  | [] => []
  | c :: cs => utf8EncodeChar c ++ utf8Encode cs

/-- `ethers.toUtf8Bytes` / `TextEncoder.encode` on a JS string. -/
def toUtf8Bytes (s : String) : List Nat :=
  utf8Encode s.data

/-- The Unicode replacement character U+FFFD produced by `TextDecoder` for
ill-formed input. -/
def replacementChar : Char := Char.ofNat 0xFFFD

/-- UTF-8 decoding (`TextDecoder.decode`), exact on well-formed UTF-8 (which
is all the repository's pipeline feeds it); truncated multi-byte sequences
decode to the replacement character.  The standard lead-byte dispatch (one
byte below 0x80, two below 0xE0, three below 0xF0, four otherwise) is
unrolled over the length of the remaining input so that each equation of the
definition covers one input shape. -/
def utf8Decode : List Nat → List Char
  | [] => []
  | [b0] =>
    if b0 < 0x80 then [Char.ofNat b0] else [replacementChar]
  | [b0, b1] =>
    if b0 < 0x80 then Char.ofNat b0 :: utf8Decode [b1]
    else if b0 < 0xE0 then [Char.ofNat ((b0 % 32) * 64 + b1 % 64)]
    else [replacementChar]
  | [b0, b1, b2] =>
    if b0 < 0x80 then Char.ofNat b0 :: utf8Decode [b1, b2]
    else if b0 < 0xE0 then Char.ofNat ((b0 % 32) * 64 + b1 % 64) :: utf8Decode [b2]
    else if b0 < 0xF0 then [Char.ofNat (((b0 % 16) * 64 + b1 % 64) * 64 + b2 % 64)]
    else [replacementChar]
  | b0 :: b1 :: b2 :: b3 :: rest =>
    if b0 < 0x80 then Char.ofNat b0 :: utf8Decode (b1 :: b2 :: b3 :: rest)
    else if b0 < 0xE0 then
      Char.ofNat ((b0 % 32) * 64 + b1 % 64) :: utf8Decode (b2 :: b3 :: rest)
    else if b0 < 0xF0 then
      Char.ofNat (((b0 % 16) * 64 + b1 % 64) * 64 + b2 % 64) :: utf8Decode (b3 :: rest)
    else
      Char.ofNat ((((b0 % 8) * 64 + b1 % 64) * 64 + b2 % 64) * 64 + b3 % 64)
        :: utf8Decode rest

/-! ## Key derivation (crypto.ts, deriveKeyFromAddress) -/

/-- The full parameterization of the PBKDF2 `deriveKey` call made by
`deriveKeyFromAddress`, recording every argument the source passes to the
Web Crypto API. -/
structure DeriveParams where
  kdf : String
  hash : String
  iterations : Nat
  salt : List Nat
  keyLength : Nat
  algorithm : String
  keyMaterial : List Nat
  deriving DecidableEq

/-- Address normalization of `deriveKeyFromAddress`: lowercase, then drop a
leading `0x` if present. -/
def normalizeAddress (address : String) : String :=
  let lower := String.mk (address.data.map Char.toLower)
  match lower.data with
  | '0' :: 'x' :: rest => String.mk rest
  | _ => lower

/-- `deriveKeyFromAddress` of crypto.ts.  The function is total: it performs
no validation of the address; the key material is the UTF-8 bytes of the
normalized address concatenated with the decimal chain id, and the PBKDF2
parameters are exactly those passed to `crypto.subtle.deriveKey`. -/
def deriveKeyFromAddress (address : String) (chainId : Nat) : DeriveParams :=
  { kdf := "PBKDF2"
    hash := "SHA-256"
    iterations := 1000
    salt := toUtf8Bytes "secure-device-maintenance-salt"
    keyLength := 256
    algorithm := "AES-GCM"
    keyMaterial := toUtf8Bytes (normalizeAddress address ++ toString chainId) }

/-- Abstract AES-GCM encryption primitive: key parameters, 12-byte IV,
plaintext bytes to ciphertext-with-tag bytes. -/
def AeadEnc : Type := DeriveParams → List Nat → List Nat → List Nat

/-- Abstract AES-GCM decryption primitive; `none` is the authentication
failure (`OperationError`). -/
def AeadDec : Type := DeriveParams → List Nat → List Nat → Option (List Nat)

/-- Failure classes of `decryptString`, abstracting the distinct thrown
message texts: the two format checks (the spec's MalformedEnvelope), the
`RangeError` of an odd-length hex field, and the AEAD tag failure. -/
inductive CryptoErr where
  | malformedEnvelope
  | invalidHexLength
  | authenticationFailure
  deriving DecidableEq

/-- `encryptString` of crypto.ts, with the AEAD primitive and the random
12-byte IV (from `crypto.getRandomValues`) as explicit parameters: derive the
key, encrypt the UTF-8 bytes of the plaintext, and return
`hex(iv) ++ ":" ++ hex(ciphertext)`. -/
def encryptString (enc : AeadEnc) (plaintext address : String) (chainId : Nat)
    (iv : List Nat) : String :=
  let key := deriveKeyFromAddress address chainId
  let encrypted := enc key iv (toUtf8Bytes plaintext)
  String.mk (bytesToHex iv ++ ':' :: bytesToHex encrypted)

/-- `decryptString` of crypto.ts, with the AEAD primitive as an explicit
parameter: reject inputs without a colon, split on `:`, reject unless exactly
two fields, hex-decode both fields, derive the key, and run the inverse AEAD
transform. -/
def decryptString (dec : AeadDec) (encryptedData address : String)
    (chainId : Nat) : Except CryptoErr String :=
  if jsIncludes encryptedData.data ':' = false then
    .error .malformedEnvelope
  else
    match splitOnColon encryptedData.data with
    | [ivChars, encChars] =>
      match hexToBytes (String.mk ivChars), hexToBytes (String.mk encChars) with
      | some iv, some encBytes =>
        match dec (deriveKeyFromAddress address chainId) iv encBytes with
        | some pt => .ok (String.mk (utf8Decode pt))
        | none => .error .authenticationFailure
      | _, _ => .error .invalidHexLength
    | _ => .error .malformedEnvelope

/-- `encryptedStringToBytes` of crypto.ts: remove the (first) colon and
hex-decode; `none` models the `RangeError` on an odd-length result. -/
def encryptedStringToBytes (encryptedData : String) : Option (List Nat) :=
  hexToBytes (String.mk (replaceFirstColon encryptedData.data))

/-- `bytesToEncryptedString` of crypto.ts: treat the first `ivLength`
(default 12) bytes as the IV and re-render `hex(iv) ++ ":" ++ hex(rest)`. -/
def bytesToEncryptedString (bytes : List Nat) (ivLength : Nat := 12) : String :=
  String.mk (bytesToHex (bytes.take ivLength) ++ ':' :: bytesToHex (bytes.drop ivLength))

/-! ## The DeviceMaintenance contract (src/contracts/DeviceMaintenance.sol) -/

/-- The `DeviceStatus` enum. -/
inductive DeviceStatus where
  | Operational
  | Maintenance
  | Critical
  deriving DecidableEq

/-- The `Device` struct.  `existsFlag` is the struct's `exists` member
(renamed: `exists` is reserved in Lean). -/
structure Device where
  name : String
  deviceType : String
  status : DeviceStatus
  lastMaintenance : Nat
  nextCalibration : Nat
  encryptedNotes : List Nat
  encryptedCalibration : List Nat
  existsFlag : Bool
  deriving DecidableEq

/-- The default value a Solidity `mapping(string => Device)` yields for an
absent key: all members zero-initialized. -/
def emptyDevice : Device :=
  { name := "", deviceType := "", status := .Operational,
    lastMaintenance := 0, nextCalibration := 0,
    encryptedNotes := [], encryptedCalibration := [], existsFlag := false }

/-- Contract storage: the two mappings and the owner. -/
structure ContractState where
  devices : String → Device
  authorizedTechnicians : String → Bool
  owner : String

/-- Assignment into a Solidity mapping. -/
def mapSet {α : Type} (m : String → α) (k : String) (v : α) : String → α :=
  fun x => if x = k then v else m x

/-- The events the contract can emit. -/
inductive ContractEvent where
  | DeviceRegistered (deviceId name technician : String)
  | MaintenanceUpdated (deviceId technician : String) (timestamp : Nat)
  | TechnicianAuthorized (technician sender : String)
  | TechnicianRevoked (technician sender : String)
  deriving DecidableEq

/-- The zero address, `address(0)`. -/
def zeroAddress : String := "0x0000000000000000000000000000000000000000"

/-- The constructor: `owner = msg.sender; authorizedTechnicians[msg.sender] = true`. -/
def initialState (sender : String) : ContractState :=
  { devices := fun _ => emptyDevice
    authorizedTechnicians := mapSet (fun _ => false) sender true
    owner := sender }

/-- The `isAuthorized` view:
`authorizedTechnicians[technician] || technician == owner`. -/
def isAuthorized (s : ContractState) (technician : String) : Bool :=
  s.authorizedTechnicians technician || technician == s.owner

/-- `registerDevice`, checks in source order: the `onlyAuthorized` modifier,
the duplicate-id `require`, the two non-emptiness `require`s, then the struct
assignment and the `DeviceRegistered` event. -/
def registerDevice (s : ContractState) (sender deviceId name deviceType : String)
    (status : DeviceStatus) (lastMaintenance nextCalibration : Nat)
    (encryptedNotes encryptedCalibration : List Nat) :
    Except String (ContractState × List ContractEvent) :=
  if (s.authorizedTechnicians sender || sender == s.owner) = false then
    .error "Not authorized technician"
  else if (s.devices deviceId).existsFlag then
    .error "Device already exists"
  else if encryptedNotes.length = 0 then
    .error "Encrypted notes cannot be empty"
  else if encryptedCalibration.length = 0 then
    .error "Encrypted calibration cannot be empty"
  else
    let d : Device :=
      { name := name, deviceType := deviceType, status := status,
        lastMaintenance := lastMaintenance, nextCalibration := nextCalibration,
        encryptedNotes := encryptedNotes,
        encryptedCalibration := encryptedCalibration, existsFlag := true }
    .ok ({ s with devices := mapSet s.devices deviceId d },
        [ContractEvent.DeviceRegistered deviceId name sender])

/-- `updateMaintenance`: after the modifier and the three `require`s it
assigns status, the two timestamps and the two ciphertext fields of the
stored struct (name, deviceType and the existence flag are not assigned and
are not even parameters), then emits `MaintenanceUpdated` with
`block.timestamp` (the explicit `blockTimestamp` argument here). -/
def updateMaintenance (s : ContractState) (sender : String) (blockTimestamp : Nat)
    (deviceId : String) (status : DeviceStatus) (lastMaintenance nextCalibration : Nat)
    (encryptedNotes encryptedCalibration : List Nat) :
    Except String (ContractState × List ContractEvent) :=
  if (s.authorizedTechnicians sender || sender == s.owner) = false then
    .error "Not authorized technician"
  else if (s.devices deviceId).existsFlag = false then
    .error "Device does not exist"
  else if encryptedNotes.length = 0 then
    .error "Encrypted notes cannot be empty"
  else if encryptedCalibration.length = 0 then
    .error "Encrypted calibration cannot be empty"
  else
    let old := s.devices deviceId
    let d : Device :=
      { name := old.name, deviceType := old.deviceType, status := status,
        lastMaintenance := lastMaintenance, nextCalibration := nextCalibration,
        encryptedNotes := encryptedNotes,
        encryptedCalibration := encryptedCalibration, existsFlag := old.existsFlag }
    .ok ({ s with devices := mapSet s.devices deviceId d },
        [ContractEvent.MaintenanceUpdated deviceId sender blockTimestamp])

/-- `getDeviceInfo`: the unrestricted public-info read. -/
def getDeviceInfo (s : ContractState) (deviceId : String) :
    Except String (String × String × DeviceStatus × Nat × Nat) :=
  if (s.devices deviceId).existsFlag = false then
    .error "Device does not exist"
  else
    .ok ((s.devices deviceId).name, (s.devices deviceId).deviceType,
      (s.devices deviceId).status, (s.devices deviceId).lastMaintenance,
      (s.devices deviceId).nextCalibration)

/-- `getEncryptedRecords`: the authorization-gated ciphertext read. -/
def getEncryptedRecords (s : ContractState) (sender deviceId : String) :
    Except String (List Nat × List Nat) :=
  if (s.authorizedTechnicians sender || sender == s.owner) = false then
    .error "Not authorized technician"
  else if (s.devices deviceId).existsFlag = false then
    .error "Device does not exist"
  else
    .ok ((s.devices deviceId).encryptedNotes, (s.devices deviceId).encryptedCalibration)

/-- `authorizeTechnician` (owner only). -/
def authorizeTechnician (s : ContractState) (sender technician : String) :
    Except String (ContractState × List ContractEvent) :=
  if (sender == s.owner) = false then
    .error "Only owner can perform this action"
  else if technician == zeroAddress then
    .error "Invalid address"
  else if s.authorizedTechnicians technician then
    .error "Technician already authorized"
  else
    .ok ({ s with authorizedTechnicians := mapSet s.authorizedTechnicians technician true },
      [ContractEvent.TechnicianAuthorized technician sender])

/-- `revokeTechnician` (owner only). -/
def revokeTechnician (s : ContractState) (sender technician : String) :
    Except String (ContractState × List ContractEvent) :=
  if (sender == s.owner) = false then
    .error "Only owner can perform this action"
  else if s.authorizedTechnicians technician = false then
    .error "Technician not authorized"
  else
    .ok ({ s with authorizedTechnicians := mapSet s.authorizedTechnicians technician false },
      [ContractEvent.TechnicianRevoked technician sender])

/-- The getter the Solidity compiler auto-generates for the `public` mapping
`devices` (declaration line 28 of the contract).  Per the Solidity ABI rules
for public state variables, a struct-valued getter returns every member
except nested mappings and non-byte arrays — so `string` and `bytes` members,
including both ciphertext fields, ARE returned.  The getter has no modifier
and takes no account of the caller. -/
def devicesGetter (s : ContractState) (deviceId : String) :
    String × String × DeviceStatus × Nat × Nat × List Nat × List Nat × Bool :=
  ((s.devices deviceId).name, (s.devices deviceId).deviceType,
    (s.devices deviceId).status, (s.devices deviceId).lastMaintenance,
    (s.devices deviceId).nextCalibration, (s.devices deviceId).encryptedNotes,
    (s.devices deviceId).encryptedCalibration, (s.devices deviceId).existsFlag)

/-- The contract's state-mutating external calls, each tagged with
`msg.sender` (and `block.timestamp` where the source reads it). -/
inductive ContractOp where
  | register (sender deviceId name deviceType : String) (status : DeviceStatus)
      (lastMaintenance nextCalibration : Nat) (notes cal : List Nat)
  | update (sender : String) (blockTimestamp : Nat) (deviceId : String)
      (status : DeviceStatus) (lastMaintenance nextCalibration : Nat)
      (notes cal : List Nat)
  | authorize (sender technician : String)
  | revoke (sender technician : String)

/-- Dispatch one external call. -/
def execOp (s : ContractState) : ContractOp → Except String (ContractState × List ContractEvent)
  | .register sender deviceId name deviceType status lastM nextC notes cal =>
    registerDevice s sender deviceId name deviceType status lastM nextC notes cal
  | .update sender ts deviceId status lastM nextC notes cal =>
    updateMaintenance s sender ts deviceId status lastM nextC notes cal
  | .authorize sender technician => authorizeTechnician s sender technician
  | .revoke sender technician => revokeTechnician s sender technician

/-- Transaction semantics: a reverted call leaves storage untouched and emits
nothing. -/
def stepOp (s : ContractState) (op : ContractOp) : ContractState × List ContractEvent :=
  match execOp s op with
  | .ok r => r
  | .error _ => (s, [])

/-- The states reachable from deployment by the administrator `admin`. -/
inductive Reachable (admin : String) : ContractState → Prop
  | init : Reachable admin (initialState admin)
  | next (s : ContractState) (op : ContractOp) :
      Reachable admin s → Reachable admin (stepOp s op).1

/-! ## Auxiliary definitions and concrete states used by the proofs -/

deriving instance DecidableEq for Except

/-- The lowercase hex alphabet (as a set: only membership is ever used). -/
def lowerHexDigits : List Char :=
  ['0', '2', '4', '6', '8', 'a', 'c', 'e', '1', '3', '5', '7', '9', 'b', 'd', 'f']

/-- A deployed contract in which the administrator has registered one device
with ciphertext fields `[1, 2, 3]` and `[4, 5, 6]`. -/
def demoState : ContractState :=
  (stepOp (initialState "0xadmin")
    (ContractOp.register "0xadmin" "dev-001" "MRI-X200" "scanner" DeviceStatus.Operational
      100 200 [1, 2, 3] [4, 5, 6])).1

/-- As `demoState` but with different ciphertext contents and identical
visible fields. -/
def demoStateAltCipher : ContractState :=
  (stepOp (initialState "0xadmin")
    (ContractOp.register "0xadmin" "dev-001" "MRI-X200" "scanner" DeviceStatus.Operational
      100 200 [7, 7, 7] [8, 8, 8])).1

/-- A deployed contract holding a device named `NameA`. -/
def preStateNameA : ContractState :=
  (stepOp (initialState "0xadmin")
    (ContractOp.register "0xadmin" "dev-001" "NameA" "typeT" DeviceStatus.Operational
      100 200 [1] [2])).1

/-- As `preStateNameA` but the device is named `NameB`. -/
def preStateNameB : ContractState :=
  (stepOp (initialState "0xadmin")
    (ContractOp.register "0xadmin" "dev-001" "NameB" "typeT" DeviceStatus.Operational
      100 200 [1] [2])).1

/-- A well-formed ciphertext envelope string: a 12-byte all-zero IV and a
one-byte body, as `encryptString` renders them. -/
def c2Envelope : String := "000000000000000000000000:00"

/-- A deployed contract in which the administrator has registered a device
through the hook's write path: both ciphertext fields hold
`ethers.toUtf8Bytes` of the envelope string, exactly as
`useDeviceContract.registerDevice` submits them. -/
def c2State : ContractState :=
  (stepOp (initialState "0xadmin")
    (ContractOp.register "0xadmin" "dev-001" "MRI-X200" "scanner" DeviceStatus.Operational
      100 200 (toUtf8Bytes c2Envelope) (toUtf8Bytes c2Envelope))).1

/-! ## Supporting lemmas: UTF-8 -/

/-- Every Unicode scalar value is below 0x110000. -/
theorem char_toNat_lt (c : Char) : c.toNat < 1114112 := by
  have hv : c.toNat = c.val.toNat := rfl
  rcases c.valid with h | ⟨_, h⟩
  · have h2 : c.val.toNat < (0xd800 : UInt32).toNat := h
    norm_num [UInt32.size] at h2
    omega
  · have h2 : c.val.toNat < (0x110000 : UInt32).toNat := h
    norm_num [UInt32.size] at h2
    omega

/-- Decoding consumes one encoded scalar and continues. -/
theorem utf8Decode_encodeChar (c : Char) (rest : List Nat) :
    utf8Decode (utf8EncodeChar c ++ rest) = c :: utf8Decode rest := by
  have hlt := char_toNat_lt c
  have hval := Char.ofNat_toNat c
  unfold utf8EncodeChar
  by_cases h1 : c.toNat < 0x80
  · simp only [if_pos h1, List.cons_append, List.nil_append]
    rcases rest with _ | ⟨r1, _ | ⟨r2, _ | ⟨r3, rr⟩⟩⟩ <;>
      simp only [utf8Decode, if_pos h1, hval]
  · by_cases h2 : c.toNat < 0x800
    · simp only [if_neg h1, if_pos h2, List.cons_append, List.nil_append]
      have hb0a : ¬ (0xC0 + c.toNat / 64 < 0x80) := by omega
      have hb0b : 0xC0 + c.toNat / 64 < 0xE0 := by omega
      have harg : (0xC0 + c.toNat / 64) % 32 * 64 + (0x80 + c.toNat % 64) % 64 = c.toNat := by
        omega
      rcases rest with _ | ⟨r1, _ | ⟨r2, rr⟩⟩ <;>
        simp only [utf8Decode, if_neg hb0a, if_pos hb0b, harg, hval]
    · by_cases h3 : c.toNat < 0x10000
      · simp only [if_neg h1, if_neg h2, if_pos h3, List.cons_append, List.nil_append]
        have hb0a : ¬ (0xE0 + c.toNat / 4096 < 0x80) := by omega
        have hb0b : ¬ (0xE0 + c.toNat / 4096 < 0xE0) := by omega
        have hb0c : 0xE0 + c.toNat / 4096 < 0xF0 := by omega
        have harg : ((0xE0 + c.toNat / 4096) % 16 * 64 + (0x80 + c.toNat / 64 % 64) % 64) * 64
            + (0x80 + c.toNat % 64) % 64 = c.toNat := by omega
        rcases rest with _ | ⟨r1, rr⟩ <;>
          simp only [utf8Decode, if_neg hb0a, if_neg hb0b, if_pos hb0c, harg, hval]
      · simp only [if_neg h1, if_neg h2, if_neg h3, List.cons_append, List.nil_append]
        have hb0a : ¬ (0xF0 + c.toNat / 262144 < 0x80) := by omega
        have hb0b : ¬ (0xF0 + c.toNat / 262144 < 0xE0) := by omega
        have hb0c : ¬ (0xF0 + c.toNat / 262144 < 0xF0) := by omega
        have harg : (((0xF0 + c.toNat / 262144) % 8 * 64 + (0x80 + c.toNat / 4096 % 64) % 64) * 64
            + (0x80 + c.toNat / 64 % 64) % 64) * 64 + (0x80 + c.toNat % 64) % 64 = c.toNat := by
          omega
        simp only [utf8Decode, if_neg hb0a, if_neg hb0b, if_neg hb0c, harg, hval]

/-- UTF-8 decoding inverts UTF-8 encoding. -/
theorem utf8Decode_utf8Encode (l : List Char) : utf8Decode (utf8Encode l) = l := by
  induction l with
  | nil => rfl
  | cons c cs ih => rw [utf8Encode, utf8Decode_encodeChar, ih]

/-- UTF-8 encoded output consists of bytes. -/
theorem utf8Encode_lt256 (l : List Char) : ∀ b ∈ utf8Encode l, b < 256 := by
  induction l with
  | nil => intro b hb; simp [utf8Encode] at hb
  | cons c cs ih =>
    intro b hb
    rw [utf8Encode, List.mem_append] at hb
    rcases hb with hb | hb
    · have hlt := char_toNat_lt c
      unfold utf8EncodeChar at hb
      by_cases h1 : c.toNat < 0x80
      · simp only [if_pos h1, List.mem_singleton] at hb; omega
      · by_cases h2 : c.toNat < 0x800
        · simp only [if_neg h1, if_pos h2, List.mem_cons, List.not_mem_nil, or_false] at hb
          rcases hb with rfl | rfl <;> omega
        · by_cases h3 : c.toNat < 0x10000
          · simp only [if_neg h1, if_neg h2, if_pos h3, List.mem_cons, List.not_mem_nil,
              or_false] at hb
            rcases hb with rfl | rfl | rfl <;> omega
          · simp only [if_neg h1, if_neg h2, if_neg h3, List.mem_cons, List.not_mem_nil,
              or_false] at hb
            rcases hb with rfl | rfl | rfl | rfl <;> omega
    · exact ih b hb

/-! ## Supporting lemmas: hex encoding -/

theorem hexDigitChar_mem (n : Nat) : hexDigitChar n ∈ lowerHexDigits := by
  unfold hexDigitChar
  split <;> decide

theorem hexVal_hexDigitChar (n : Nat) (h : n < 16) : hexVal (hexDigitChar n) = some n := by
  interval_cases n <;> decide

theorem lowerHex_ne_colon {c : Char} (h : c ∈ lowerHexDigits) : c ≠ ':' := by
  fin_cases h <;> decide

theorem lowerHex_ne_x {c : Char} (h : c ∈ lowerHexDigits) : c ≠ 'x' := by
  fin_cases h <;> decide

theorem lowerHex_roundtrip {c : Char} (h : c ∈ lowerHexDigits) :
    (hexVal c).isSome ∧ (hexVal c).getD 0 < 16 ∧ hexDigitChar ((hexVal c).getD 0) = c := by
  fin_cases h <;> decide

theorem bytesToHex_mem (bs : List Nat) : ∀ c ∈ bytesToHex bs, c ∈ lowerHexDigits := by
  induction bs with
  | nil => intro c hc; simp [bytesToHex] at hc
  | cons b rest ih =>
    intro c hc
    rw [bytesToHex] at hc
    rcases List.mem_append.mp hc with hc | hc
    · simp only [byteToHex, List.mem_cons, List.not_mem_nil, or_false] at hc
      rcases hc with rfl | rfl <;> exact hexDigitChar_mem _
    · exact ih c hc

theorem bytesToHex_length (bs : List Nat) : (bytesToHex bs).length = 2 * bs.length := by
  induction bs with
  | nil => rfl
  | cons b rest ih => simp [bytesToHex, byteToHex, ih]; omega

theorem hexPairs_bytesToHex (bs : List Nat) (h : ∀ b ∈ bs, b < 256) :
    hexPairs (bytesToHex bs) = bs := by
  induction bs with
  | nil => rfl
  | cons b rest ih =>
    have hb : b < 256 := h b (List.mem_cons_self b rest)
    rw [bytesToHex, byteToHex, List.cons_append, List.cons_append, List.nil_append, hexPairs]
    simp only [parseIntPair, hexVal_hexDigitChar _ (show b / 16 < 16 by omega),
      hexVal_hexDigitChar _ (show b % 16 < 16 by omega)]
    rw [ih (fun x hx => h x (List.mem_cons_of_mem b hx))]
    congr 1
    omega

theorem strip0x_eq_self {l : List Char} (hx : ∀ c ∈ l, c ≠ 'x') : strip0x l = l := by
  unfold strip0x
  split
  · rename_i rest
    exact absurd rfl (hx 'x' (by simp))
  · rfl

/-- Hex rendering then hex parsing is the identity on byte lists. -/
theorem hexToBytes_bytesToHex (bs : List Nat) (h : ∀ b ∈ bs, b < 256) :
    hexToBytes (String.mk (bytesToHex bs)) = some bs := by
  rw [hexToBytes]
  have hx : ∀ c ∈ bytesToHex bs, c ≠ 'x' := fun c hc => lowerHex_ne_x (bytesToHex_mem bs c hc)
  simp only [strip0x_eq_self hx, bytesToHex_length]
  rw [if_pos (by omega)]
  rw [hexPairs_bytesToHex bs h]

/-! ## Supporting lemmas: split and replace -/

theorem splitOnColon_ne_nil (l : List Char) : splitOnColon l ≠ [] := by
  cases l with
  | nil => simp [splitOnColon]
  | cons c rest =>
    rw [splitOnColon]
    cases h : splitOnColon rest with
    | nil => simp
    | cons s ss =>
      by_cases hc : c = ':' <;> simp [hc]

theorem splitOnColon_colonFree {l : List Char} (h : ∀ c ∈ l, c ≠ ':') :
    splitOnColon l = [l] := by
  induction l with
  | nil => rfl
  | cons c rest ih =>
    rw [splitOnColon, ih (fun x hx => h x (List.mem_cons_of_mem c hx))]
    simp [h c (List.mem_cons_self c rest)]

theorem splitOnColon_cons_colon (l2 : List Char) :
    splitOnColon (':' :: l2) = [] :: splitOnColon l2 := by
  rw [splitOnColon]
  cases h : splitOnColon l2 with
  | nil => exact absurd h (splitOnColon_ne_nil l2)
  | cons s ss => simp

theorem splitOnColon_append_colon {l1 : List Char} (l2 : List Char)
    (h : ∀ c ∈ l1, c ≠ ':') :
    splitOnColon (l1 ++ ':' :: l2) = l1 :: splitOnColon l2 := by
  induction l1 with
  | nil => simpa using splitOnColon_cons_colon l2
  | cons c rest ih =>
    rw [List.cons_append, splitOnColon,
      ih (fun x hx => h x (List.mem_cons_of_mem c hx))]
    simp [h c (List.mem_cons_self c rest)]

theorem replaceFirstColon_append {l1 : List Char} (l2 : List Char)
    (h : ∀ c ∈ l1, c ≠ ':') :
    replaceFirstColon (l1 ++ ':' :: l2) = l1 ++ l2 := by
  induction l1 with
  | nil => simp [replaceFirstColon]
  | cons c rest ih =>
    rw [List.cons_append, replaceFirstColon, if_neg (h c (List.mem_cons_self c rest)),
      ih (fun x hx => h x (List.mem_cons_of_mem c hx)), List.cons_append]

theorem hexPairs_append {l1 : List Char} (l2 : List Char) (h : l1.length % 2 = 0) :
    hexPairs (l1 ++ l2) = hexPairs l1 ++ hexPairs l2 := by
  induction l1 using hexPairs.induct with
  | case1 c1 c2 rest ih =>
    rw [List.cons_append, List.cons_append, hexPairs,
      ih (by simp only [List.length_cons] at h; omega), hexPairs, List.cons_append]
  | case2 t ht =>
    cases t with
    | nil => rfl
    | cons c rest =>
      cases rest with
      | nil => simp at h
      | cons c2 r2 => exact absurd rfl (ht c c2 r2)

theorem hexPairs_length (l : List Char) : (hexPairs l).length = l.length / 2 := by
  induction l using hexPairs.induct with
  | case1 c1 c2 rest ih => simp [hexPairs, ih]; omega
  | case2 t ht =>
    cases t with
    | nil => rfl
    | cons c rest =>
      cases rest with
      | nil => simp [hexPairs]
      | cons c2 r2 => exact absurd rfl (ht c c2 r2)

theorem bytesToHex_hexPairs {l : List Char} (hmem : ∀ c ∈ l, c ∈ lowerHexDigits)
    (heven : l.length % 2 = 0) : bytesToHex (hexPairs l) = l := by
  induction l using hexPairs.induct with
  | case1 c1 c2 rest ih =>
    have h1 := lowerHex_roundtrip (hmem c1 (by simp))
    have h2 := lowerHex_roundtrip (hmem c2 (by simp))
    obtain ⟨v1, hv1⟩ := Option.isSome_iff_exists.mp h1.1
    obtain ⟨v2, hv2⟩ := Option.isSome_iff_exists.mp h2.1
    have hc1 : hexDigitChar v1 = c1 := by
      have := h1.2.2; rwa [hv1, Option.getD_some] at this
    have hc2 : hexDigitChar v2 = c2 := by
      have := h2.2.2; rwa [hv2, Option.getD_some] at this
    have hv1lt : v1 < 16 := by
      have := h1.2.1; rwa [hv1, Option.getD_some] at this
    have hv2lt : v2 < 16 := by
      have := h2.2.1; rwa [hv2, Option.getD_some] at this
    rw [hexPairs, parseIntPair, hv1, hv2]
    rw [bytesToHex, byteToHex]
    have hdiv : (v1 * 16 + v2) / 16 = v1 := by omega
    have hmod : (v1 * 16 + v2) % 16 = v2 := by omega
    rw [hdiv, hmod, hc1, hc2,
      ih (fun x hx => hmem x (by simp [hx])) (by simp only [List.length_cons] at heven; omega)]
    rfl
  | case2 t ht =>
    cases t with
    | nil => rfl
    | cons c rest =>
      cases rest with
      | nil => simp at heven
      | cons c2 r2 => exact absurd rfl (ht c c2 r2)

theorem mem_jsIncludes {l : List Char} {c : Char} (h : c ∈ l) : jsIncludes l c = true := by
  simp [jsIncludes]
  exact h

/-- Claim C4: for every plaintext string (empty and multi-byte included),
every address, every chain id and every 12-byte IV, decrypting the envelope
produced by `encryptString` with the same address and chain id returns the
original plaintext, assuming the AES-GCM platform primitive satisfies its
standard inverse contract on byte inputs. -/
theorem decryptString_encryptString (enc : AeadEnc) (dec : AeadDec)
    (hdec : ∀ k iv pt, (∀ b ∈ pt, b < 256) → dec k iv (enc k iv pt) = some pt)
    (hct : ∀ k iv pt, (∀ b ∈ pt, b < 256) → ∀ b ∈ enc k iv pt, b < 256)
    (plaintext address : String) (chainId : Nat) (iv : List Nat)
    (hiv : ∀ b ∈ iv, b < 256) :
    decryptString dec (encryptString enc plaintext address chainId iv) address chainId
      = .ok plaintext := by
  have hpt : ∀ b ∈ utf8Encode plaintext.data, b < 256 := utf8Encode_lt256 plaintext.data
  have hctb : ∀ b ∈ enc (deriveKeyFromAddress address chainId) iv (utf8Encode plaintext.data),
      b < 256 := hct _ iv _ hpt
  have henv : (encryptString enc plaintext address chainId iv).data
      = bytesToHex iv ++ ':' :: bytesToHex
          (enc (deriveKeyFromAddress address chainId) iv (utf8Encode plaintext.data)) := rfl
  rw [decryptString, henv]
  have hivhex : ∀ c ∈ bytesToHex iv, c ≠ ':' :=
    fun c hc => lowerHex_ne_colon (bytesToHex_mem iv c hc)
  have hcthex : ∀ c ∈ bytesToHex
      (enc (deriveKeyFromAddress address chainId) iv (utf8Encode plaintext.data)), c ≠ ':' :=
    fun c hc => lowerHex_ne_colon (bytesToHex_mem _ c hc)
  rw [mem_jsIncludes (by simp : (':' : Char) ∈ bytesToHex iv ++ ':' :: bytesToHex
    (enc (deriveKeyFromAddress address chainId) iv (utf8Encode plaintext.data)))]
  simp only [Bool.true_eq_false, if_false]
  rw [splitOnColon_append_colon _ hivhex, splitOnColon_colonFree hcthex]
  simp only [hexToBytes_bytesToHex iv hiv, hexToBytes_bytesToHex _ hctb,
    hdec _ iv _ hpt, utf8Decode_utf8Encode]

/-- Witness for claim C4: the round trip evaluated at a concrete multi-byte
plaintext, address, chain id and IV, with a concrete primitive satisfying the
AEAD hypotheses. -/
theorem c4_witness :
    decryptString (fun _ _ ct => some ct)
      (encryptString (fun _ _ pt => pt) "Xé✓" "0xAbC" 31337
        [0, 1, 2, 3, 4, 5, 6, 7, 8, 9, 10, 11]) "0xAbC" 31337 = .ok "Xé✓" :=
  decryptString_encryptString (fun _ _ pt => pt) (fun _ _ ct => some ct)
    (fun _ _ _ _ => rfl) (fun _ _ _ h => h) "Xé✓" "0xAbC" 31337
    [0, 1, 2, 3, 4, 5, 6, 7, 8, 9, 10, 11] (by decide)

theorem splitOnColon_cons_ne {c : Char} (hc : c ≠ ':') {rest s : List Char}
    {ss : List (List Char)} (h : splitOnColon rest = s :: ss) :
    splitOnColon (c :: rest) = (c :: s) :: ss := by
  rw [splitOnColon, h]
  simp [hc]

theorem splitOnColon_length (l : List Char) :
    (splitOnColon l).length = l.count ':' + 1 := by
  induction l with
  | nil => simp [splitOnColon]
  | cons c rest ih =>
    cases h : splitOnColon rest with
    | nil => exact absurd h (splitOnColon_ne_nil rest)
    | cons s ss =>
      rw [h] at ih
      by_cases hc : c = ':'
      · subst hc
        rw [splitOnColon_cons_colon, h]
        simp only [List.length_cons, List.count_cons] at *
        simp [ih]
      · rw [splitOnColon_cons_ne hc h]
        have hbeq : (c == ':') = false := by simp [hc]
        simp only [List.length_cons, List.count_cons, hbeq, Bool.false_eq_true,
          if_false] at *
        omega

/-- Claim C6 (amended): `decryptString` fails with the malformed-envelope
error exactly when the input cannot be split into exactly two ':'-separated
fields (no colon, or more than one); a field that is not valid hex is NOT
rejected as malformed — hex parsing coerces it and decryption proceeds. -/
theorem decryptString_malformed_iff (dec : AeadDec) (encryptedData address : String)
    (chainId : Nat) :
    decryptString dec encryptedData address chainId = .error .malformedEnvelope
      ↔ encryptedData.data.count ':' ≠ 1 := by
  have hlen := splitOnColon_length encryptedData.data
  by_cases hin : jsIncludes encryptedData.data ':' = false
  · rw [decryptString, if_pos hin]
    have hmem : ':' ∉ encryptedData.data := by
      simpa [jsIncludes] using hin
    have h0 : encryptedData.data.count ':' = 0 := List.count_eq_zero.mpr hmem
    simp [h0]
  · rw [decryptString, if_neg hin]
    have hmem : ':' ∈ encryptedData.data := by
      by_contra hmem
      exact hin (by simpa [jsIncludes] using hmem)
    have hpos : encryptedData.data.count ':' ≠ 0 :=
      fun h0 => (List.count_eq_zero.mp h0) hmem
    rcases hsp : splitOnColon encryptedData.data with _ | ⟨a, _ | ⟨b, _ | ⟨c, tl⟩⟩⟩
    · exact absurd hsp (splitOnColon_ne_nil _)
    · rw [hsp] at hlen
      simp only [List.length_cons, List.length_nil] at hlen
      exact absurd (by omega : encryptedData.data.count ':' = 0) hpos
    · rw [hsp] at hlen
      simp only [List.length_cons, List.length_nil] at hlen
      have hc1 : encryptedData.data.count ':' = 1 := by omega
      rw [hc1]
      simp only [ne_eq, not_true_eq_false, iff_false]
      intro h
      rcases h1 : hexToBytes (String.mk a) with _ | iv
      · simp [h1] at h
      · rcases h2 : hexToBytes (String.mk b) with _ | ebytes
        · simp [h1, h2] at h
        · rcases h3 : dec (deriveKeyFromAddress address chainId) iv ebytes with _ | pt
          · simp [h1, h2, h3] at h
          · simp [h1, h2, h3] at h
    · rw [hsp] at hlen
      simp only [List.length_cons] at hlen
      have hne : encryptedData.data.count ':' ≠ 1 := by omega
      simp [hne]

/-- Counterexample to claim C6 as stated: the input `zz:00` has exactly one
colon and a non-hex first field, yet `decryptString` does not reject it as
malformed — it parses `zz` as the single byte 0 and processes the envelope
(shown with a primitive that accepts the bytes, the call returns a result). -/
theorem c6_counterexample :
    decryptString (fun _ _ _ => some []) "zz:00" "0xAb" 1 = .ok "" ∧
    hexVal 'z' = none ∧ "zz:00".data.count ':' = 1 := by
  exact ⟨rfl, by decide, by decide⟩

/-- Claim C10: on every well-formed envelope (exactly one ':', both fields
even-length lowercase hex, first field 24 digits = 12 bytes), the
colon-stripping byte encoding for contract storage and the 12-byte-prefix
decoding are mutual inverses:
`bytesToEncryptedString (encryptedStringToBytes e) 12 = e`. -/
theorem bytesToEncryptedString_encryptedStringToBytes (e : String) (h1 h2 : List Char)
    (hsplit : e.data = h1 ++ ':' :: h2)
    (hlen1 : h1.length = 24) (hlen2 : h2.length % 2 = 0)
    (hhex1 : ∀ c ∈ h1, c ∈ lowerHexDigits) (hhex2 : ∀ c ∈ h2, c ∈ lowerHexDigits) :
    (encryptedStringToBytes e).map (fun bs => bytesToEncryptedString bs 12) = some e := by
  have hcf1 : ∀ c ∈ h1, c ≠ ':' := fun c hc => lowerHex_ne_colon (hhex1 c hc)
  rw [encryptedStringToBytes, hsplit, replaceFirstColon_append h2 hcf1]
  have hxfree : ∀ c ∈ h1 ++ h2, c ≠ 'x' := by
    intro c hc
    rcases List.mem_append.mp hc with hc | hc
    · exact lowerHex_ne_x (hhex1 c hc)
    · exact lowerHex_ne_x (hhex2 c hc)
  rw [hexToBytes]
  simp only [strip0x_eq_self hxfree, List.length_append]
  rw [if_pos (by omega)]
  rw [hexPairs_append h2 (by omega)]
  simp only [Option.map_some']
  rw [bytesToEncryptedString]
  have htake : (hexPairs h1 ++ hexPairs h2).take 12 = hexPairs h1 := by
    rw [List.take_left' (by rw [hexPairs_length, hlen1])]
  have hdrop : (hexPairs h1 ++ hexPairs h2).drop 12 = hexPairs h2 := by
    rw [List.drop_left' (by rw [hexPairs_length, hlen1])]
  rw [htake, hdrop, bytesToHex_hexPairs hhex1 (by omega), bytesToHex_hexPairs hhex2 hlen2]
  rw [← hsplit]

/-- Witness for claim C10: the serialization inverse evaluated on a concrete
well-formed envelope. -/
theorem bytesToEncryptedString_encryptedStringToBytes_witness :
    ("0123456789abcdef01234567:89ab" : String).data
        = "0123456789abcdef01234567".data ++ ':' :: "89ab".data ∧
    (encryptedStringToBytes "0123456789abcdef01234567:89ab").map
        (fun bs => bytesToEncryptedString bs 12)
      = some "0123456789abcdef01234567:89ab" :=
  ⟨by decide,
    bytesToEncryptedString_encryptedStringToBytes "0123456789abcdef01234567:89ab"
      "0123456789abcdef01234567".data "89ab".data (by decide) (by decide) (by decide)
      (by decide) (by decide)⟩

/-! ## Key-derivation claims -/

/-- Claim C3 (amended): key derivation applies PBKDF2 with SHA-256, a fixed
publicly-known salt constant, a 256-bit output tagged for AES-GCM use, over
the canonicalized identity concatenated with the decimal chain id — but with
1,000 iterations, not the claimed at-least-100,000. -/
theorem deriveKeyFromAddress_params (address : String) (chainId : Nat) :
    (deriveKeyFromAddress address chainId).kdf = "PBKDF2" ∧
    (deriveKeyFromAddress address chainId).hash = "SHA-256" ∧
    (deriveKeyFromAddress address chainId).iterations = 1000 ∧
    (deriveKeyFromAddress address chainId).salt
      = toUtf8Bytes "secure-device-maintenance-salt" ∧
    (deriveKeyFromAddress address chainId).keyLength = 256 ∧
    (deriveKeyFromAddress address chainId).algorithm = "AES-GCM" ∧
    (deriveKeyFromAddress address chainId).keyMaterial
      = toUtf8Bytes (normalizeAddress address ++ toString chainId) :=
  ⟨rfl, rfl, rfl, rfl, rfl, rfl, rfl⟩

/-- Counterexample to claim C3 as stated: the iteration count the source
passes to PBKDF2 is 1,000, which is not at least 100,000. -/
theorem deriveKeyFromAddress_iterations_below_100000 :
    (deriveKeyFromAddress "0xAb" 1).iterations = 1000 ∧
    ¬ 100000 ≤ (deriveKeyFromAddress "0xAb" 1).iterations := by
  exact ⟨rfl, by decide⟩

/-- Counterexample to claim C9 as stated: an identity that is not 20 bytes of
hex (not hex at all) is not rejected — `deriveKeyFromAddress` normalizes it
and derives key parameters from it, with no `InvalidIdentity` failure path. -/
theorem deriveKeyFromAddress_malformed_identity :
    (deriveKeyFromAddress "not-hex-at-all!!" 7).keyMaterial
      = toUtf8Bytes "not-hex-at-all!!7" ∧
    (deriveKeyFromAddress "not-hex-at-all!!" 7).algorithm = "AES-GCM" := by
  exact ⟨by decide, rfl⟩

/-- Claim C9 (amended): derivation never fails on a malformed identity; every
string, well-formed or not, is lowercased, 0x-stripped and used together with
the decimal chain id as the PBKDF2 input material. -/
theorem deriveKeyFromAddress_total (address : String) (chainId : Nat) :
    (deriveKeyFromAddress address chainId).keyMaterial
      = toUtf8Bytes (normalizeAddress address ++ toString chainId) := rfl

/-! ## Contract claims -/

/-- Claim C7: in every state holding a record with the given id, a register
call with that id fails — with the duplicate-id error when the caller passes
the authorization gate — and the transaction leaves the state unchanged and
emits nothing. -/
theorem registerDevice_duplicate (s : ContractState)
    (sender deviceId name deviceType : String) (status : DeviceStatus)
    (lastMaintenance nextCalibration : Nat) (encryptedNotes encryptedCalibration : List Nat)
    (h : (s.devices deviceId).existsFlag = true) :
    (∃ e, registerDevice s sender deviceId name deviceType status lastMaintenance
        nextCalibration encryptedNotes encryptedCalibration = .error e) ∧
    stepOp s (.register sender deviceId name deviceType status lastMaintenance
        nextCalibration encryptedNotes encryptedCalibration) = (s, []) ∧
    (isAuthorized s sender = true →
      registerDevice s sender deviceId name deviceType status lastMaintenance
        nextCalibration encryptedNotes encryptedCalibration = .error "Device already exists") := by
  by_cases hauth : (s.authorizedTechnicians sender || sender == s.owner) = false
  · refine ⟨⟨"Not authorized technician", ?_⟩, ?_, ?_⟩
    · rw [registerDevice, if_pos hauth]
    · rw [stepOp, execOp, registerDevice, if_pos hauth]
    · intro hA
      rw [isAuthorized] at hA
      rw [hA] at hauth
      cases hauth
  · have hreg : registerDevice s sender deviceId name deviceType status lastMaintenance
        nextCalibration encryptedNotes encryptedCalibration = .error "Device already exists" := by
      rw [registerDevice, if_neg hauth, if_pos h]
    refine ⟨⟨_, hreg⟩, ?_, fun _ => hreg⟩
    rw [stepOp, execOp, hreg]

/-- Witness for claim C7: a duplicate registration against a concrete
one-device state. -/
theorem registerDevice_duplicate_witness :
    (demoState.devices "dev-001").existsFlag = true ∧
    ((∃ e, registerDevice demoState "0xadmin" "dev-001" "Other" "Other"
        DeviceStatus.Critical 1 2 [9] [9] = .error e) ∧
    stepOp demoState (.register "0xadmin" "dev-001" "Other" "Other"
        DeviceStatus.Critical 1 2 [9] [9]) = (demoState, []) ∧
    (isAuthorized demoState "0xadmin" = true →
      registerDevice demoState "0xadmin" "dev-001" "Other" "Other"
        DeviceStatus.Critical 1 2 [9] [9] = .error "Device already exists")) :=
  ⟨by decide,
    registerDevice_duplicate demoState "0xadmin" "dev-001" "Other" "Other"
      DeviceStatus.Critical 1 2 [9] [9] (by decide)⟩

/-- Claim C5 (amended): for every authorized caller and existing record, a
successful update overwrites status, both timestamps and both ciphertext
fields in place and emits exactly one `MaintenanceUpdated` notification with
the id, the caller, and the block timestamp — but the name and deviceType
fields are NOT parameters of the call and remain unchanged, as does every
other record. -/
theorem updateMaintenance_replaces (s : ContractState) (sender : String)
    (blockTimestamp : Nat) (deviceId : String) (status : DeviceStatus)
    (lastMaintenance nextCalibration : Nat) (encryptedNotes encryptedCalibration : List Nat)
    (hauth : isAuthorized s sender = true)
    (hex : (s.devices deviceId).existsFlag = true)
    (hn : encryptedNotes ≠ []) (hc : encryptedCalibration ≠ []) :
    ∃ s', updateMaintenance s sender blockTimestamp deviceId status lastMaintenance
        nextCalibration encryptedNotes encryptedCalibration
        = .ok (s', [ContractEvent.MaintenanceUpdated deviceId sender blockTimestamp]) ∧
      s'.owner = s.owner ∧
      s'.authorizedTechnicians = s.authorizedTechnicians ∧
      (∀ j, j ≠ deviceId → s'.devices j = s.devices j) ∧
      (s'.devices deviceId).name = (s.devices deviceId).name ∧
      (s'.devices deviceId).deviceType = (s.devices deviceId).deviceType ∧
      (s'.devices deviceId).status = status ∧
      (s'.devices deviceId).lastMaintenance = lastMaintenance ∧
      (s'.devices deviceId).nextCalibration = nextCalibration ∧
      (s'.devices deviceId).encryptedNotes = encryptedNotes ∧
      (s'.devices deviceId).encryptedCalibration = encryptedCalibration ∧
      (s'.devices deviceId).existsFlag = true := by
  rw [isAuthorized] at hauth
  have hnl : ¬ encryptedNotes.length = 0 := by
    simpa [List.length_eq_zero] using hn
  have hcl : ¬ encryptedCalibration.length = 0 := by
    simpa [List.length_eq_zero] using hc
  let upd : Device :=
    { name := (s.devices deviceId).name, deviceType := (s.devices deviceId).deviceType,
      status := status, lastMaintenance := lastMaintenance,
      nextCalibration := nextCalibration, encryptedNotes := encryptedNotes,
      encryptedCalibration := encryptedCalibration,
      existsFlag := (s.devices deviceId).existsFlag }
  refine ⟨{ s with devices := mapSet s.devices deviceId upd },
    ?_, rfl, rfl, ?_, ?_, ?_, ?_, ?_, ?_, ?_, ?_, ?_⟩
  · rw [updateMaintenance, if_neg (by simp [hauth]), if_neg (by simp [hex]),
      if_neg hnl, if_neg hcl]
  · intro j hj
    simp [mapSet, hj]
  all_goals simp [mapSet, hex]

/-- Witness for claim C5: the amended update effect evaluated on a concrete
one-device state. -/
theorem updateMaintenance_replaces_witness :
    isAuthorized demoState "0xadmin" = true ∧
    (demoState.devices "dev-001").existsFlag = true ∧
    (∃ s', updateMaintenance demoState "0xadmin" 777 "dev-001" DeviceStatus.Critical 5 6
        [7] [8] = .ok (s', [ContractEvent.MaintenanceUpdated "dev-001" "0xadmin" 777]) ∧
      s'.owner = demoState.owner ∧
      s'.authorizedTechnicians = demoState.authorizedTechnicians ∧
      (∀ j, j ≠ "dev-001" → s'.devices j = demoState.devices j) ∧
      (s'.devices "dev-001").name = (demoState.devices "dev-001").name ∧
      (s'.devices "dev-001").deviceType = (demoState.devices "dev-001").deviceType ∧
      (s'.devices "dev-001").status = DeviceStatus.Critical ∧
      (s'.devices "dev-001").lastMaintenance = 5 ∧
      (s'.devices "dev-001").nextCalibration = 6 ∧
      (s'.devices "dev-001").encryptedNotes = [7] ∧
      (s'.devices "dev-001").encryptedCalibration = [8] ∧
      (s'.devices "dev-001").existsFlag = true) :=
  ⟨by decide, by decide,
    updateMaintenance_replaces demoState "0xadmin" 777 "dev-001" DeviceStatus.Critical 5 6
      [7] [8] (by decide) (by decide) (by decide) (by decide)⟩

/-- Counterexample to claim C5 as stated: two states that differ only in the
stored device name receive the identical update call, and the names survive
into the post-states — the update is not a full replacement of all visible
fields by the call's arguments (which carry no name or deviceType at all). -/
theorem updateMaintenance_keeps_name :
    Except.map (fun r => ((r.1.devices "dev-001").name, (r.1.devices "dev-001").deviceType))
        (updateMaintenance preStateNameA "0xadmin" 777 "dev-001" DeviceStatus.Critical 5 6
          [7] [8]) = Except.ok ("NameA", "typeT") ∧
    Except.map (fun r => ((r.1.devices "dev-001").name, (r.1.devices "dev-001").deviceType))
        (updateMaintenance preStateNameB "0xadmin" 777 "dev-001" DeviceStatus.Critical 5 6
          [7] [8]) = Except.ok ("NameB", "typeT") ∧
    ("NameA" : String) ≠ "NameB" := by
  refine ⟨?_, ?_, by decide⟩ <;> rfl

/-- The successful path of every operation preserves the owner. -/
theorem execOp_owner {s : ContractState} {op : ContractOp}
    {r : ContractState × List ContractEvent} (h : execOp s op = .ok r) :
    r.1.owner = s.owner := by
  cases op <;>
    simp only [execOp, registerDevice, updateMaintenance, authorizeTechnician,
      revokeTechnician] at h <;>
    repeat' split at h
  all_goals
    first
      | (injection h with h1; rw [← h1])
      | injection h

/-- A transaction never changes the owner. -/
theorem stepOp_owner (s : ContractState) (op : ContractOp) :
    (stepOp s op).1.owner = s.owner := by
  rw [stepOp]
  split
  · next r heq => exact execOp_owner heq
  · rfl

/-- Reachable states keep the deployer as owner. -/
theorem reachable_owner {admin : String} {s : ContractState} (h : Reachable admin s) :
    s.owner = admin := by
  induction h with
  | init => rfl
  | next s' op hr ih => rw [stepOp_owner, ih]

/-- Claim C8: in every reachable state the administrator is authorized (the
check is derived from identity equality with the owner), and a revoke call
targeting the administrator in the constructor-seeded initial state does not
fail with the not-authorized error — it succeeds, flips the table entry, and
still leaves the administrator authorized. -/
theorem isAuthorized_admin_invariant (admin : String) (s : ContractState)
    (h : Reachable admin s) :
    isAuthorized s admin = true ∧
    ∃ s', revokeTechnician (initialState admin) admin admin
        = .ok (s', [ContractEvent.TechnicianRevoked admin admin]) ∧
      isAuthorized s' admin = true := by
  constructor
  · rw [isAuthorized, reachable_owner h]
    simp
  · refine ⟨{ initialState admin with
      authorizedTechnicians := mapSet (initialState admin).authorizedTechnicians admin false },
      ?_, ?_⟩
    · rw [revokeTechnician, if_neg (by simp [initialState]),
        if_neg (by simp [initialState, mapSet])]
    · simp [isAuthorized, initialState]

/-- Witness for claim C8: the invariant evaluated at the reachable initial
state of a concrete administrator. -/
theorem isAuthorized_admin_invariant_witness :
    isAuthorized (initialState "0xadmin") "0xadmin" = true ∧
    ∃ s', revokeTechnician (initialState "0xadmin") "0xadmin" "0xadmin"
        = .ok (s', [ContractEvent.TechnicianRevoked "0xadmin" "0xadmin"]) ∧
      isAuthorized s' "0xadmin" = true :=
  isAuthorized_admin_invariant "0xadmin" (initialState "0xadmin") Reachable.init

/-- Claim C1 is violated by the code: the Solidity compiler's auto-generated
getter for the `public` `devices` mapping returns both ciphertext fields,
ungated, to any caller.  On a concrete state, a caller that `isAuthorized`
rejects (and whom `getEncryptedRecords` refuses) can still read the
ciphertext through the getter, and the getter's output depends on the stored
ciphertext while the gated public-info read does not. -/
theorem devicesGetter_leaks_ciphertext :
    isAuthorized demoState "0xeve" = false ∧
    isAuthorized demoStateAltCipher "0xeve" = false ∧
    getEncryptedRecords demoState "0xeve" "dev-001" = .error "Not authorized technician" ∧
    devicesGetter demoState "dev-001"
      = ("MRI-X200", "scanner", DeviceStatus.Operational, 100, 200, [1, 2, 3], [4, 5, 6],
        true) ∧
    devicesGetter demoStateAltCipher "dev-001" ≠ devicesGetter demoState "dev-001" ∧
    getDeviceInfo demoStateAltCipher "dev-001" = getDeviceInfo demoState "dev-001" := by
  refine ⟨rfl, rfl, rfl, rfl, ?_, rfl⟩
  intro h
  exact absurd (congrArg (fun t => t.2.2.2.2.2.1) h) (by decide)

/-- Claim C2 is violated by the code: the hook stores
`ethers.toUtf8Bytes(envelope)` (the UTF-8 bytes of the `ivHex:cipherHex`
string); the contract returns those bytes verbatim, but the hook's read path
reconstructs the envelope with `bytesToEncryptedString`, which treats the
first 12 raw bytes as the nonce — so the returned envelope string differs
from the stored one and decryption cannot reproduce the plaintext. -/
theorem hook_envelope_roundtrip_broken :
    getEncryptedRecords c2State "0xadmin" "dev-001"
      = .ok (toUtf8Bytes c2Envelope, toUtf8Bytes c2Envelope) ∧
    bytesToEncryptedString (toUtf8Bytes c2Envelope) 12 ≠ c2Envelope ∧
    bytesToEncryptedString (toUtf8Bytes c2Envelope) 12
      = "303030303030303030303030:3030303030303030303030303a3030" := by
  refine ⟨rfl, by decide, by decide⟩
